import Mathlib

/-!
Verification of the benchmark registry runner in `bench_pt_op/__main__.py`.

The runner is embedded shallowly:

* the parsed command line becomes the structure `Args`;
* a benchmark entry is a pair of a name and a runnable; invoking a runnable
  with the arguments either returns normally (`Except.ok`) or raises an
  exception carrying a message (`Except.error`), which is what the
  `except Exception` clause of the source catches;
* the observable behaviour of a run is a list of `Event`s: lines printed to
  stdout, invocations of runnables, and `traceback.print_exc()` calls;
* the selection loop of `main` becomes `selLoop`, the benchmarking loop
  becomes `execLoopE` (with denotation `execEvents`), and `main` composes
  them, returning `Except.error` exactly when an exception would propagate
  out of `main` uncaught.
-/

namespace BenchPtOp

/-- Parsed command line of `parse_args`: the boolean flag `forward_only`
(only forwarded to the runnables) and the optional substring filter
`only_run`. -/
structure Args where
  forward_only : Bool
  only_run : Option String

/-- A runnable benchmark function: invoked with the parsed arguments, it
either returns normally (`Except.ok`) or raises an exception whose message
is the `String` payload (`Except.error`). -/
abbrev BenchFn : Type := Args → Except String Unit

/-- Python substring containment `sub in s` on strings: `sub` occurs as a
contiguous, case-sensitive substring of `s`. -/
def strContains (s sub : String) : Bool :=
  decide (sub.data <:+: s.data)

/-- The guard of the selection loop of `main`:
`args.only_run is None or args.only_run in name`. -/
def matchesFilter (only_run : Option String) (name : String) : Bool :=
  match only_run with
  | none => true
  | some f => strContains name f

/-- State accumulated by the selection loop of `main`: the list `funcs` of
selected entries (the execution plan), the counters `selected` and `total`,
and the lines printed during the pass, all in loop order. -/
structure SelResult (α : Type) where
  funcs : List (String × α)
  selected : Nat
  total : Nat
  lines : List String

/-- The selection loop of `main`: walk the discovered entries in order; an
entry whose name passes the filter is printed as selected and appended to
the plan, any other entry is printed as skipped; both branches count into
`total`. -/
def selLoop (only_run : Option String) : List (String × α) → SelResult α
  | [] => ⟨[], 0, 0, []⟩
  | e :: rest =>
    let r := selLoop only_run rest
    if matchesFilter only_run e.1 then
      ⟨e :: r.funcs, r.selected + 1, r.total + 1, ("Selected " ++ e.1) :: r.lines⟩
    else
      ⟨r.funcs, r.selected, r.total + 1, ("Skipped " ++ e.1) :: r.lines⟩

/-- The summary line printed after the selection pass. -/
def summaryLine (selected total : Nat) : String :=
  "Running selected " ++ toString selected ++ "/" ++ toString total ++ " ops"

/-- One observable event of a run: a line printed to stdout, the invocation
of the runnable of a named entry, or the full diagnostic trace printed by
`traceback.print_exc()` for a caught exception with message `err`. -/
inductive Event where
  | out (line : String)
  | invoke (name : String)
  | printExc (err : String)
deriving DecidableEq

/-- The progress line printed before each invocation, 1-indexed. -/
def progressLine (idx n_func : Nat) (name : String) : String :=
  "[" ++ toString (idx + 1) ++ "/" ++ toString n_func ++ "] Benchmarking " ++ name

/-- The one-line failure notice printed by the exception handler. -/
def failLine (name err : String) : String :=
  "Failed to benchmark " ++ name ++ ": " ++ err

/-- One iteration of the benchmarking loop of `main`: print the progress
line, then invoke the runnable inside the `try` block; when the invocation
raises, the `except Exception` clause prints the diagnostic trace and the
failure notice. Both branches return `Except.ok`: the handler never lets
the exception propagate. -/
def execStep (args : Args) (n_func idx : Nat) (e : String × BenchFn) :
    Except String (List Event) :=
  match e.2 args with
  | Except.ok _ =>
      Except.ok [Event.out (progressLine idx n_func e.1), Event.invoke e.1]
  | Except.error err =>
      Except.ok [Event.out (progressLine idx n_func e.1), Event.invoke e.1,
        Event.printExc err, Event.out (failLine e.1 err)]

/-- The benchmarking loop of `main` from position `idx` on: run each step in
order; an `Except.error` would model an exception propagating out of the
loop. -/
def execLoopE (args : Args) (n_func : Nat) :
    Nat → List (String × BenchFn) → Except String (List Event)
  | _, [] => Except.ok []
  | idx, e :: rest =>
    match execStep args n_func idx e with
    | Except.error msg => Except.error msg
    | Except.ok evs =>
      match execLoopE args n_func (idx + 1) rest with
      | Except.error msg => Except.error msg
      | Except.ok evsRest => Except.ok (evs ++ evsRest)

/-- Denotation of one iteration of the benchmarking loop: the events it
produces. -/
def stepEvents (args : Args) (n_func idx : Nat) (e : String × BenchFn) :
    List Event :=
  match e.2 args with
  | Except.ok _ =>
      [Event.out (progressLine idx n_func e.1), Event.invoke e.1]
  | Except.error err =>
      [Event.out (progressLine idx n_func e.1), Event.invoke e.1,
        Event.printExc err, Event.out (failLine e.1 err)]

/-- Denotation of the benchmarking loop: the events it produces. -/
def execEvents (args : Args) (n_func : Nat) :
    Nat → List (String × BenchFn) → List Event
  | _, [] => []
  | idx, e :: rest =>
    stepEvents args n_func idx e ++ execEvents args n_func (idx + 1) rest

/-- The whole of `main` after argument parsing, as a function of the parsed
arguments and of the entry list returned by the external `get_op_list`:
run the selection pass, print the summary, then run the benchmarking loop
over the plan with `n_func` its length. The result is the event trace of
the run; an exception propagating out of `main` would surface as
`Except.error`. -/
def main (args : Args) (entries : List (String × BenchFn)) :
    Except String (List Event) :=
  let sel := selLoop args.only_run entries
  match execLoopE args sel.funcs.length 0 sel.funcs with
  | Except.error msg => Except.error msg
  | Except.ok evs =>
    Except.ok (sel.lines.map Event.out
      ++ Event.out (summaryLine sel.selected sel.total) :: evs)

/-- Exit status of the process: 0 when `main` returns normally, 1 when an
exception propagates out of it (the interpreter exits non-zero on an
uncaught exception). -/
def processExitCode (args : Args) (entries : List (String × BenchFn)) : Nat :=
  match main args entries with
  | Except.ok _ => 0
  | Except.error _ => 1

/-- The names whose runnables are invoked, in order, in an event trace. -/
def invokedNames (evs : List Event) : List String :=
  evs.filterMap fun ev =>
    match ev with
    | Event.invoke n => some n
    | _ => none

/-- The plan built by the selection loop is the filter of the discovered
entries by the guard, in discovery order. -/
theorem selLoop_funcs (only_run : Option String) (entries : List (String × α)) :
    (selLoop only_run entries).funcs
      = entries.filter fun e => matchesFilter only_run e.1 := by
  induction entries with
  | nil => rfl
  | cons e rest ih =>
    cases h : matchesFilter only_run e.1 <;>
      simp [selLoop, h, ih, List.filter_cons]

/-- The total counter of the selection loop counts every discovered entry. -/
theorem selLoop_total (only_run : Option String) (entries : List (String × α)) :
    (selLoop only_run entries).total = entries.length := by
  induction entries with
  | nil => rfl
  | cons e rest ih =>
    cases h : matchesFilter only_run e.1 <;> simp [selLoop, h, ih]

/-- The selected counter of the selection loop counts the entries passing
the guard. -/
theorem selLoop_selected (only_run : Option String) (entries : List (String × α)) :
    (selLoop only_run entries).selected
      = (entries.filter fun e => matchesFilter only_run e.1).length := by
  induction entries with
  | nil => rfl
  | cons e rest ih =>
    cases h : matchesFilter only_run e.1 <;>
      simp [selLoop, h, ih, List.filter_cons]

/-- The selection loop prints exactly one line per discovered entry, in
discovery order: a selected notice or a skipped notice. -/
theorem selLoop_lines (only_run : Option String) (entries : List (String × α)) :
    (selLoop only_run entries).lines
      = entries.map fun e =>
          if matchesFilter only_run e.1 then "Selected " ++ e.1
          else "Skipped " ++ e.1 := by
  induction entries with
  | nil => rfl
  | cons e rest ih =>
    cases h : matchesFilter only_run e.1 <;> simp [selLoop, h, ih]

/-- A step of the benchmarking loop always returns normally: the handler
catches the raised exception. -/
theorem execStep_eq_ok (args : Args) (n_func idx : Nat) (e : String × BenchFn) :
    execStep args n_func idx e = Except.ok (stepEvents args n_func idx e) := by
  cases h : e.2 args <;> simp [execStep, stepEvents, h]

/-- The benchmarking loop always returns normally, producing the event
denotation: no exception propagates out of it. -/
theorem execLoopE_eq_ok (args : Args) (n_func : Nat) (idx : Nat)
    (funcs : List (String × BenchFn)) :
    execLoopE args n_func idx funcs
      = Except.ok (execEvents args n_func idx funcs) := by
  induction funcs generalizing idx with
  | nil => rfl
  | cons e rest ih =>
    simp [execLoopE, execEvents, execStep_eq_ok, ih]

/-- Projecting invocations distributes over trace concatenation. -/
theorem invokedNames_append (a b : List Event) :
    invokedNames (a ++ b) = invokedNames a ++ invokedNames b := by
  simp [invokedNames, List.filterMap_append]

/-- One step of the benchmarking loop invokes exactly its entry, whether it
returns or raises. -/
theorem invokedNames_stepEvents (args : Args) (n_func idx : Nat)
    (e : String × BenchFn) :
    invokedNames (stepEvents args n_func idx e) = [e.1] := by
  cases h : e.2 args <;> simp [stepEvents, h, invokedNames]

/-- The benchmarking loop invokes exactly the planned entries, once each,
in plan order, regardless of which invocations raise. -/
theorem invokedNames_execEvents (args : Args) (n_func : Nat) (idx : Nat)
    (funcs : List (String × BenchFn)) :
    invokedNames (execEvents args n_func idx funcs) = funcs.map Prod.fst := by
  induction funcs generalizing idx with
  | nil => rfl
  | cons e rest ih =>
    simp [execEvents, invokedNames_append, invokedNames_stepEvents, ih]

/-- The trace of the benchmarking loop contains, for the entry at position
`i` of the remaining plan, its progress line immediately followed by its
invocation. -/
theorem execEvents_block (args : Args) (n_func : Nat)
    (funcs : List (String × BenchFn)) :
    ∀ (idx i : Nat) (hi : i < funcs.length),
      ∃ pre post,
        execEvents args n_func idx funcs
          = pre
            ++ Event.out (progressLine (idx + i) n_func (funcs.get ⟨i, hi⟩).1)
              :: Event.invoke (funcs.get ⟨i, hi⟩).1 :: post := by
  induction funcs with
  | nil =>
    intro idx i hi
    exact absurd hi (by simp)
  | cons e rest ih =>
    intro idx i hi
    cases i with
    | zero =>
      cases h : e.2 args with
      | ok u =>
        refine ⟨[], execEvents args n_func (idx + 1) rest, ?_⟩
        simp [execEvents, stepEvents, h]
      | error err =>
        refine ⟨[], Event.printExc err :: Event.out (failLine e.1 err)
          :: execEvents args n_func (idx + 1) rest, ?_⟩
        simp [execEvents, stepEvents, h]
    | succ j =>
      obtain ⟨pre, post, hp⟩ := ih (idx + 1) j (Nat.lt_of_succ_lt_succ hi)
      refine ⟨stepEvents args n_func idx e ++ pre, post, ?_⟩
      have harith : idx + 1 + j = idx + (j + 1) := by omega
      simp [execEvents, hp, harith]

/-- A run of `main` always returns normally, with the selection lines first,
then the summary line, then the events of the benchmarking loop over the
plan. -/
theorem main_eq_ok (args : Args) (entries : List (String × BenchFn)) :
    main args entries
      = Except.ok ((selLoop args.only_run entries).lines.map Event.out
          ++ Event.out (summaryLine (selLoop args.only_run entries).selected
              (selLoop args.only_run entries).total)
            :: execEvents args (selLoop args.only_run entries).funcs.length 0
              (selLoop args.only_run entries).funcs) := by
  simp [main, execLoopE_eq_ok]

/-- Printed lines carry no invocation. -/
theorem invokedNames_map_out (l : List String) :
    invokedNames (l.map Event.out) = [] := by
  induction l with
  | nil => rfl
  | cons s rest ih => simp [invokedNames] at ih ⊢

/-- The empty string is a substring of every string. -/
theorem strContains_empty (s : String) : strContains s "" = true := by
  simp [strContains]

/-- An empty-string filter passes every name: the empty string is a
substring of every string. -/
theorem matchesFilter_empty (name : String) :
    matchesFilter (some "") name = true := by
  simp [matchesFilter, strContains_empty]

/-- The number of entries passing a test plus the number failing it is the
total number of entries. -/
theorem filter_length_add_countP (p : α → Bool) (l : List α) :
    (l.filter p).length + l.countP (fun a => !(p a)) = l.length := by
  induction l with
  | nil => rfl
  | cons a rest ih =>
    cases h : p a <;> simp [List.filter_cons, List.countP_cons, h] <;> omega

/-- Sample arguments for concrete runs. -/
def demoArgs : Args := ⟨false, some "attn"⟩

/-- A sample runnable that raises an exception with message oom. -/
def attnFwdFail : BenchFn := fun _ => Except.error "oom"

/-- A sample runnable that returns normally. -/
def attnBwdOk : BenchFn := fun _ => Except.ok ()

/-- A sample runnable that returns normally. -/
def linearFwdOk : BenchFn := fun _ => Except.ok ()

/-- A sample discovery sequence of three named entries. -/
def demoEntries : List (String × BenchFn) :=
  [("attn_fwd", attnFwdFail), ("attn_bwd", attnBwdOk), ("linear_fwd", linearFwdOk)]

/-- The sample plan for the filter attn is non-empty. -/
theorem demoPlanPos : 0 < (selLoop (some "attn") demoEntries).funcs.length := by
  decide

/-- C1: the selection pass of main builds the execution plan of exactly the
entries whose name contains the filter as a case-sensitive substring, in
discovery order; with the filter unset the plan is the full discovery
sequence and selected equals total. -/
theorem c1_selection_filter (f : String) (only_run : Option String)
    (entries : List (String × BenchFn)) :
    (selLoop (some f) entries).funcs
        = entries.filter (fun e => strContains e.1 f)
    ∧ (selLoop only_run entries).funcs
        = entries.filter (fun e => matchesFilter only_run e.1)
    ∧ (selLoop none entries).funcs = entries
    ∧ (selLoop none entries).selected = (selLoop none entries).total := by
  refine ⟨?_, selLoop_funcs only_run entries, ?_, ?_⟩
  · rw [selLoop_funcs]
    rfl
  · rw [selLoop_funcs]
    simp [matchesFilter]
  · rw [selLoop_selected, selLoop_total]
    simp [matchesFilter]

/-- C2: when the runnable of the entry at position k of the plan raises,
every planned entry is still invoked exactly once, in plan order, and the
benchmarking loop runs to completion without propagating anything. -/
theorem c2_fault_isolation (args : Args) (funcs : List (String × BenchFn))
    (k : Nat) (err : String) (hk : k < funcs.length)
    (_hraise : (funcs.get ⟨k, hk⟩).2 args = Except.error err) :
    invokedNames (execEvents args funcs.length 0 funcs) = funcs.map Prod.fst
    ∧ execLoopE args funcs.length 0 funcs
        = Except.ok (execEvents args funcs.length 0 funcs) :=
  ⟨invokedNames_execEvents args funcs.length 0 funcs,
   execLoopE_eq_ok args funcs.length 0 funcs⟩

/-- Witness for C2 at a concrete plan whose first runnable raises. -/
theorem c2_fault_isolation_witness :
    invokedNames (execEvents demoArgs demoEntries.length 0 demoEntries)
        = demoEntries.map Prod.fst
    ∧ execLoopE demoArgs demoEntries.length 0 demoEntries
        = Except.ok (execEvents demoArgs demoEntries.length 0 demoEntries) :=
  c2_fault_isolation demoArgs demoEntries 0 "oom" (by decide) rfl

/-- C3: a raised fault is caught at the call site and never propagated: the
step returns normally with the diagnostic trace and the one-line failure
notice in its events, and the loop continues with the remaining entries. -/
theorem c3_fault_reporting (args : Args) (n_func idx : Nat)
    (e : String × BenchFn) (rest : List (String × BenchFn)) (err : String)
    (hraise : e.2 args = Except.error err) :
    execStep args n_func idx e
      = Except.ok [Event.out (progressLine idx n_func e.1), Event.invoke e.1,
          Event.printExc err, Event.out (failLine e.1 err)]
    ∧ execLoopE args n_func idx (e :: rest)
      = Except.ok ([Event.out (progressLine idx n_func e.1), Event.invoke e.1,
          Event.printExc err, Event.out (failLine e.1 err)]
          ++ execEvents args n_func (idx + 1) rest) := by
  constructor
  · simp [execStep, hraise]
  · simp [execLoopE, execStep, hraise, execLoopE_eq_ok]

/-- Witness for C3 at a concrete raising runnable followed by another
entry. -/
theorem c3_fault_reporting_witness :
    execStep demoArgs 2 0 ("attn_fwd", attnFwdFail)
      = Except.ok [Event.out (progressLine 0 2 "attn_fwd"),
          Event.invoke "attn_fwd", Event.printExc "oom",
          Event.out (failLine "attn_fwd" "oom")]
    ∧ execLoopE demoArgs 2 0 [("attn_fwd", attnFwdFail), ("attn_bwd", attnBwdOk)]
      = Except.ok ([Event.out (progressLine 0 2 "attn_fwd"),
          Event.invoke "attn_fwd", Event.printExc "oom",
          Event.out (failLine "attn_fwd" "oom")]
          ++ execEvents demoArgs 2 1 [("attn_bwd", attnBwdOk)]) :=
  c3_fault_reporting demoArgs 2 0 ("attn_fwd", attnFwdFail)
    [("attn_bwd", attnBwdOk)] "oom" rfl

/-- C4: the planned entries are invoked in their relative discovery order
(the invocation sequence is the filtered name sequence, a sublist of the
discovery names), and the trace holds, for each plan position i, the
1-indexed progress line over the plan length immediately before that
invocation. -/
theorem c4_order_and_progress (only_run : Option String) (args : Args)
    (entries : List (String × BenchFn)) :
    invokedNames (execEvents args (selLoop only_run entries).funcs.length 0
        (selLoop only_run entries).funcs)
      = (entries.filter fun e => matchesFilter only_run e.1).map Prod.fst
    ∧ (invokedNames (execEvents args (selLoop only_run entries).funcs.length 0
        (selLoop only_run entries).funcs)).Sublist (entries.map Prod.fst)
    ∧ ∀ (i : Nat) (hi : i < (selLoop only_run entries).funcs.length),
        ∃ pre post,
          execEvents args (selLoop only_run entries).funcs.length 0
              (selLoop only_run entries).funcs
            = pre ++ Event.out (progressLine i
                  (selLoop only_run entries).funcs.length
                  ((selLoop only_run entries).funcs.get ⟨i, hi⟩).1)
                :: Event.invoke ((selLoop only_run entries).funcs.get ⟨i, hi⟩).1
                :: post := by
  refine ⟨?_, ?_, ?_⟩
  · rw [invokedNames_execEvents, selLoop_funcs]
  · rw [invokedNames_execEvents, selLoop_funcs]
    exact List.Sublist.map Prod.fst (List.filter_sublist entries)
  · intro i hi
    have h := execEvents_block args (selLoop only_run entries).funcs.length
      (selLoop only_run entries).funcs 0 i hi
    simpa using h

/-- Witness for C4 at the concrete discovery sequence, taking plan
position 0. -/
theorem c4_order_and_progress_witness :
    invokedNames (execEvents demoArgs (selLoop (some "attn") demoEntries).funcs.length 0
        (selLoop (some "attn") demoEntries).funcs)
      = (demoEntries.filter fun e => matchesFilter (some "attn") e.1).map Prod.fst
    ∧ ∃ pre post,
        execEvents demoArgs (selLoop (some "attn") demoEntries).funcs.length 0
            (selLoop (some "attn") demoEntries).funcs
          = pre ++ Event.out (progressLine 0
                (selLoop (some "attn") demoEntries).funcs.length
                ((selLoop (some "attn") demoEntries).funcs.get ⟨0, demoPlanPos⟩).1)
              :: Event.invoke
                ((selLoop (some "attn") demoEntries).funcs.get ⟨0, demoPlanPos⟩).1
              :: post :=
  ⟨(c4_order_and_progress (some "attn") demoArgs demoEntries).1,
   (c4_order_and_progress (some "attn") demoArgs demoEntries).2.2 0 demoPlanPos⟩

/-- C5: a filter that is a substring of no entry name yields an empty plan,
a selected count of 0 with the full discovery count as total, a run of
main with no invocation, and normal completion. -/
theorem c5_zero_match (fo : Bool) (f : String)
    (entries : List (String × BenchFn))
    (hnone : ∀ e ∈ entries, strContains e.1 f = false) :
    (selLoop (some f) entries).funcs = ([] : List (String × BenchFn))
    ∧ (selLoop (some f) entries).selected = 0
    ∧ (selLoop (some f) entries).total = entries.length
    ∧ main ⟨fo, some f⟩ entries
        = Except.ok ((selLoop (some f) entries).lines.map Event.out
            ++ [Event.out (summaryLine 0 entries.length)])
    ∧ invokedNames ((selLoop (some f) entries).lines.map Event.out
            ++ [Event.out (summaryLine 0 entries.length)]) = [] := by
  have hfilter : entries.filter (fun e => matchesFilter (some f) e.1) = [] := by
    rw [List.filter_eq_nil_iff]
    intro e he
    simp [matchesFilter, hnone e he]
  have h1 : (selLoop (some f) entries).funcs = [] := by
    rw [selLoop_funcs, hfilter]
  have h2 : (selLoop (some f) entries).selected = 0 := by
    rw [selLoop_selected, hfilter]
    rfl
  have h3 : (selLoop (some f) entries).total = entries.length :=
    selLoop_total (some f) entries
  refine ⟨h1, h2, h3, ?_, ?_⟩
  · have hmain := main_eq_ok ⟨fo, some f⟩ entries
    rw [hmain, h1, h2, h3]
    simp [execEvents]
  · rw [invokedNames_append, invokedNames_map_out]
    simp [invokedNames]

/-- Witness for C5 at a concrete discovery sequence and the filter zzz
matching no name. -/
theorem c5_zero_match_witness :
    (selLoop (some "zzz") demoEntries).funcs = ([] : List (String × BenchFn))
    ∧ (selLoop (some "zzz") demoEntries).selected = 0
    ∧ (selLoop (some "zzz") demoEntries).total = demoEntries.length
    ∧ main ⟨false, some "zzz"⟩ demoEntries
        = Except.ok ((selLoop (some "zzz") demoEntries).lines.map Event.out
            ++ [Event.out (summaryLine 0 demoEntries.length)])
    ∧ invokedNames ((selLoop (some "zzz") demoEntries).lines.map Event.out
            ++ [Event.out (summaryLine 0 demoEntries.length)]) = [] :=
  c5_zero_match false "zzz" demoEntries (by decide)

/-- C6: the selection pass prints exactly one line per discovered entry,
selected or skipped, in discovery order; all of them come before any
execution event, and the single summary line carrying the selected and
total counts follows the full pass. -/
theorem c6_selection_output (args : Args) (entries : List (String × BenchFn)) :
    (selLoop args.only_run entries).lines
      = entries.map (fun e =>
          if matchesFilter args.only_run e.1 then "Selected " ++ e.1
          else "Skipped " ++ e.1)
    ∧ (selLoop args.only_run entries).lines.length = entries.length
    ∧ main args entries
      = Except.ok ((selLoop args.only_run entries).lines.map Event.out
          ++ Event.out (summaryLine (selLoop args.only_run entries).selected
              (selLoop args.only_run entries).total)
            :: execEvents args (selLoop args.only_run entries).funcs.length 0
              (selLoop args.only_run entries).funcs) := by
  refine ⟨selLoop_lines args.only_run entries, ?_, main_eq_ok args entries⟩
  rw [selLoop_lines]
  simp

/-- C7: main always returns normally, whatever the entries do, and the
process exit status is 0: no per-entry failure turns into a non-zero
exit. -/
theorem c7_exit_zero (args : Args) (entries : List (String × BenchFn)) :
    processExitCode args entries = 0
    ∧ ∃ evs, main args entries = Except.ok evs := by
  have h := main_eq_ok args entries
  constructor
  · rw [processExitCode, h]
  · exact ⟨_, h⟩

/-- C8: selection is deterministic: two runs of the selection loop on the
same discovery sequence and the same filter produce the same plan and the
same printed lines. -/
theorem c8_deterministic_selection (o1 o2 : Option String)
    (e1 e2 : List (String × BenchFn)) (ho : o1 = o2) (he : e1 = e2) :
    (selLoop o1 e1).funcs = (selLoop o2 e2).funcs
    ∧ (selLoop o1 e1).lines = (selLoop o2 e2).lines := by
  subst ho
  subst he
  exact ⟨rfl, rfl⟩

/-- Witness for C8 at a concrete filter and discovery sequence. -/
theorem c8_deterministic_selection_witness :
    (selLoop (some "attn") demoEntries).funcs
        = (selLoop (some "attn") demoEntries).funcs
    ∧ (selLoop (some "attn") demoEntries).lines
        = (selLoop (some "attn") demoEntries).lines :=
  c8_deterministic_selection (some "attn") (some "attn") demoEntries demoEntries
    rfl rfl

/-- C9: the empty-string filter behaves exactly like no filter: the whole
selection state, plan, counters and printed lines included, coincides with
the unset-filter run. -/
theorem c9_empty_filter (entries : List (String × BenchFn)) :
    selLoop (some "") entries = selLoop none entries := by
  induction entries with
  | nil => rfl
  | cons e rest ih =>
    simp [selLoop, matchesFilter, strContains_empty, ih]

/-- C10: count consistency: selected is the plan length, total is the
discovery length, selected plus the number of skipped entries is total,
selected is at most total, and the plan length passed as the n of every
progress line is the selected count printed in the summary. -/
theorem c10_count_invariants (args : Args) (entries : List (String × BenchFn)) :
    (selLoop args.only_run entries).selected
        = (selLoop args.only_run entries).funcs.length
    ∧ (selLoop args.only_run entries).total = entries.length
    ∧ (selLoop args.only_run entries).selected
        + entries.countP (fun e => !(matchesFilter args.only_run e.1))
        = (selLoop args.only_run entries).total
    ∧ (selLoop args.only_run entries).selected
        ≤ (selLoop args.only_run entries).total
    ∧ main args entries
      = Except.ok ((selLoop args.only_run entries).lines.map Event.out
          ++ Event.out (summaryLine (selLoop args.only_run entries).selected
              (selLoop args.only_run entries).total)
            :: execEvents args (selLoop args.only_run entries).selected 0
              (selLoop args.only_run entries).funcs) := by
  have hsel := selLoop_selected args.only_run entries
  have htot := selLoop_total args.only_run entries
  have hfun := selLoop_funcs args.only_run entries
  have hsum := filter_length_add_countP
    (fun e => matchesFilter args.only_run e.1) entries
  have hlen : (selLoop args.only_run entries).funcs.length
      = (selLoop args.only_run entries).selected := by
    rw [hsel, hfun]
  refine ⟨?_, htot, ?_, ?_, ?_⟩
  · rw [hsel, hfun]
  · rw [hsel, htot]
    exact hsum
  · rw [hsel, htot]
    exact List.length_filter_le _ _
  · rw [main_eq_ok args entries, hlen]

end BenchPtOp
